import Mathlib

/-!
Shallow embedding of the real-time synchronization core of the c4c_raffle
application: the versioned TTL cache (src/cache/index.js), the SSE
notification hub (src/sse/index.js), the debounced single-flight database
persistence layer (src/unnamed/part_000, the db module) and the mutation
tails of the HTTP route handlers (the express server source).
-/

namespace Raffle

/-! ## Association-list maps (modelling JS Map / a keyed SQL table) -/

/-- Removes every binding of the given key, modelling Map.delete. -/
def eraseKey {α : Type} (key : String) (l : List (String × α)) : List (String × α) :=
  l.filter (fun p => p.1 ≠ key)

/-! ## VersionedCache: src/cache/index.js (class DataCache) -/

/-- Entry stored by DataCache.set: data, version, expiresAt, cachedAt. -/
structure CacheEntry (α : Type) where
  data : α
  version : Nat
  expiresAt : Nat
  cachedAt : Nat
deriving Repr, DecidableEq

/-- State of the DataCache class: the cache map and the versions map. -/
structure DataCache (α : Type) where
  cache : List (String × CacheEntry α)
  versions : List (String × Nat)
deriving Repr, DecidableEq

/-- Fresh DataCache as built by the constructor. -/
def DataCache.empty {α : Type} : DataCache α := ⟨[], []⟩

/-- TTL table of the DataCache constructor: raffles 30000 ms, rules 300000 ms,
sponsors 300000 ms. -/
def TTLtable : String → Option Nat
  | "raffles" => some 30000
  | "rules" => some 300000
  | "sponsors" => some 300000
  | _ => none

/-- Models the expression (this.TTL[key] || 5000) in DataCache.set: table
lookup with fallback 5000 for unknown keys (no table value is 0, so JS
falsiness coincides with absence). -/
def ttlFor (key : String) : Nat := (TTLtable key).getD 5000

/-- DataCache.get: lookup; absent gives null; an expired entry (now strictly
past expiresAt) is deleted and null returned; otherwise the data is returned.
The current time is passed explicitly (Date.now in the source). -/
def DataCache.get {α : Type} (c : DataCache α) (now : Nat) (key : String) :
    Option α × DataCache α :=
  match c.cache.lookup key with
  | none => (none, c)
  | some e =>
    if e.expiresAt < now then
      (none, { c with cache := eraseKey key c.cache })
    else
      (some e.data, c)

/-- DataCache.set: unconditionally overwrites the entry for the key, with
expiresAt = now + ttl and cachedAt = now, and records the version. -/
def DataCache.set {α : Type} (c : DataCache α) (now : Nat) (key : String)
    (data : α) (version : Nat) : DataCache α :=
  { cache := (key, ⟨data, version, now + ttlFor key, now⟩) :: eraseKey key c.cache,
    versions := (key, version) :: eraseKey key c.versions }

/-- DataCache.invalidate: unconditional deletion from both maps. -/
def DataCache.invalidate {α : Type} (c : DataCache α) (key : String) : DataCache α :=
  { cache := eraseKey key c.cache, versions := eraseKey key c.versions }

/-- Lookup of an erased key yields none. -/
theorem lookup_eraseKey {α : Type} (key : String) (l : List (String × α)) :
    (eraseKey key l).lookup key = none := by
  induction l with
  | nil => rfl
  | cons p rest ih =>
    by_cases h : p.1 = key
    · simpa [eraseKey, h] using ih
    · simpa [eraseKey, List.filter_cons, h, List.lookup_cons, Ne.symm h] using ih

/-- C5: after set(k, p, v) at time t0 with TTL T = ttlFor k (per-key table,
default 5000 for unknown keys) and no intervening operation on k, get(k) at
time t returns p whenever t ≤ t0 + T, and returns absent, also removing the
entry, whenever t > t0 + T. -/
theorem cache_set_get_ttl {α : Type} (c : DataCache α) (k : String) (p : α)
    (v t0 t : Nat) :
    (t ≤ t0 + ttlFor k → ((c.set t0 k p v).get t k).1 = some p)
    ∧ (t0 + ttlFor k < t →
        ((c.set t0 k p v).get t k).1 = none
        ∧ ((c.set t0 k p v).get t k).2.cache.lookup k = none) := by
  constructor
  · intro hle
    simp [DataCache.set, DataCache.get, List.lookup_cons, Nat.not_lt.mpr hle]
  · intro hlt
    refine ⟨?_, ?_⟩
    · simp [DataCache.set, DataCache.get, List.lookup_cons, hlt]
    · simp only [DataCache.set, DataCache.get, List.lookup_cons, beq_self_eq_true,
        hlt, if_pos]
      have : eraseKey k ((k, (⟨p, v, t0 + ttlFor k, t0⟩ : CacheEntry α)) ::
          eraseKey k c.cache) = eraseKey k (eraseKey k c.cache) := by
        simp [eraseKey, List.filter_cons]
      simpa [this] using lookup_eraseKey k (eraseKey k c.cache)

/-- C5 witness: concrete instance with key raffles (TTL 30000), set at t0 = 0,
reads at t = 29999 and t = 30001. -/
theorem cache_set_get_ttl_witness :
    ((((DataCache.empty (α := Nat)).set 0 "raffles" 7 1).get 29999 "raffles").1 = some 7)
    ∧ ((((DataCache.empty (α := Nat)).set 0 "raffles" 7 1).get 30001 "raffles").1 = none) :=
  ⟨(cache_set_get_ttl DataCache.empty "raffles" 7 1 0 29999).1 (by decide),
   ((cache_set_get_ttl DataCache.empty "raffles" 7 1 0 30001).2 (by decide)).1⟩

/-- C9: for every key and every cache state, get after invalidate (with no
intervening set) returns absent at every read time, regardless of remaining
TTL: invalidation is unconditional removal. -/
theorem cache_invalidate_get {α : Type} (c : DataCache α) (k : String) (t : Nat) :
    ((c.invalidate k).get t k).1 = none := by
  simp [DataCache.invalidate, DataCache.get, lookup_eraseKey]

/-! ## NotificationHub: src/sse/index.js (class SSEManager)

Connections are modelled by identifiers (Nat); the JS Set of live clients is
a duplicate-free list in insertion order. A write to a connection either
succeeds or throws; which connections throw is an environment parameter
fails : Nat → Bool. -/

/-- State of the SSEManager class: the live client set, the capacity ceiling,
and the clients on which close/error removal handlers were registered. -/
structure SSEManager where
  clients : List Nat
  maxConnections : Nat
  handlersRegistered : List Nat
deriving Repr, DecidableEq

/-- SSEManager constructor: empty live set, maxConnections = 2000. -/
def mkSSEManager : SSEManager := ⟨[], 2000, []⟩

/-- SSE named-event frame built by broadcast and sendToClient. -/
def sseFrame (event data : String) : String :=
  "event: " ++ event ++ "\ndata: " ++ data ++ "\n\n"

/-- Result of one broadcast call: the new manager state, the clients a write
was attempted on in iteration order, and the writes that succeeded, as
(client, frame) pairs. -/
structure BroadcastResult where
  manager : SSEManager
  attempted : List Nat
  delivered : List (Nat × String)
deriving Repr, DecidableEq

/-- Iteration phase of SSEManager.broadcast: walk the live set in order,
attempt each write; a successful write delivers the message, a throwing
write puts the client on the failure list. Returns (attempted, delivered,
failedClients). -/
def broadcastLoop (message : String) (fails : Nat → Bool) :
    List Nat → List Nat × List (Nat × String) × List Nat
  | [] => ([], [], [])
  | c :: rest =>
    let (att, del, failed) := broadcastLoop message fails rest
    if fails c then (c :: att, del, c :: failed)
    else (c :: att, (c, message) :: del, failed)

/-- Removal phase of SSEManager.broadcast: for each collected failed client,
this.clients.delete(client), executed only after the iteration completes. -/
def deleteAll (clients : List Nat) (failed : List Nat) : List Nat :=
  failed.foldl (fun cs c => cs.filter (fun x => x ≠ c)) clients

/-- SSEManager.broadcast(event, data): build the frame, attempt a write to
every live client collecting failures, then remove the failed clients. -/
def SSEManager.broadcast (m : SSEManager) (event data : String)
    (fails : Nat → Bool) : BroadcastResult :=
  let message := sseFrame event data
  let (att, del, failed) := broadcastLoop message fails m.clients
  { manager := { m with clients := deleteAll m.clients failed },
    attempted := att,
    delivered := del }

/-- Result of one addClient call: accepted flag, new state, frames written to
the new connection. -/
structure AddClientResult where
  accepted : Bool
  manager : SSEManager
  written : List String
deriving Repr, DecidableEq

/-- Initial heartbeat frame written on admission (and by the heartbeat). -/
def heartbeatFrame : String := ":\n\n"

/-- SSEManager.addClient(res): reject with no state change when the live
count is at or above maxConnections; otherwise write the headers and an
initial heartbeat, add the client to the live set, and register the
close/error handlers that delete it. -/
def SSEManager.addClient (m : SSEManager) (res : Nat) : AddClientResult :=
  if m.maxConnections ≤ m.clients.length then
    { accepted := false, manager := m, written := [] }
  else
    { accepted := true,
      manager :=
        { m with
          clients := if res ∈ m.clients then m.clients else m.clients ++ [res],
          handlersRegistered := m.handlersRegistered ++ [res] },
      written := ["headers", heartbeatFrame] }

/-- SSEManager.getClientCount. -/
def SSEManager.getClientCount (m : SSEManager) : Nat := m.clients.length

/-- The iteration phase attempts every client, delivers the message exactly
to the non-failing clients in order, and collects exactly the failing
clients. -/
theorem broadcastLoop_eq (message : String) (fails : Nat → Bool) (l : List Nat) :
    broadcastLoop message fails l =
      (l, (l.filter (fun c => !(fails c))).map (fun c => (c, message)),
        l.filter fails) := by
  induction l with
  | nil => rfl
  | cons c rest ih =>
    cases h : fails c <;> simp [broadcastLoop, ih, h]

/-- The removal phase equals filtering out the members of the failure list. -/
theorem deleteAll_eq (l failed : List Nat) :
    deleteAll l failed = l.filter (fun x => decide (x ∉ failed)) := by
  induction failed generalizing l with
  | nil => simp [deleteAll]
  | cons c r ih =>
    have step : deleteAll l (c :: r) = deleteAll (l.filter (fun x => x ≠ c)) r := rfl
    rw [step, ih, List.filter_filter]
    refine List.filter_congr ?_
    intro x _
    by_cases hc : x = c <;> by_cases hr : x ∈ r <;> simp [hc, hr]

/-- Filtering a predicate and its negation partitions the length. -/
theorem length_filter_add_length_filter_not (p : Nat → Bool) (l : List Nat) :
    (l.filter p).length + (l.filter (fun c => !(p c))).length = l.length := by
  induction l with
  | nil => rfl
  | cons c rest ih =>
    cases h : p c <;> simp [List.filter_cons, h, ← ih] <;> omega

/-- C1: broadcast on a live set of size N on which exactly the connections
satisfying fails throw during the write (M of them) leaves exactly the N − M
connections whose writes succeeded in the live set, every surviving
connection was delivered the named-event frame for (event, data), and every
connection — failing or not — had a write attempted (failures are collected
during iteration and removed only afterwards, so one failure never prevents
another attempt). -/
theorem broadcast_correct (m : SSEManager) (event data : String)
    (fails : Nat → Bool) :
    ((m.broadcast event data fails).manager.clients =
        m.clients.filter (fun c => !(fails c)))
    ∧ ((m.broadcast event data fails).manager.clients.length =
        m.clients.length - (m.clients.filter fails).length)
    ∧ (∀ c ∈ (m.broadcast event data fails).manager.clients,
        (c, sseFrame event data) ∈ (m.broadcast event data fails).delivered)
    ∧ ((m.broadcast event data fails).attempted = m.clients) := by
  have hloop := broadcastLoop_eq (sseFrame event data) fails m.clients
  have hclients : (m.broadcast event data fails).manager.clients =
      m.clients.filter (fun c => !(fails c)) := by
    show deleteAll m.clients (broadcastLoop (sseFrame event data) fails m.clients).2.2 =
      m.clients.filter (fun c => !(fails c))
    rw [hloop, deleteAll_eq]
    refine List.filter_congr ?_
    intro x hx
    by_cases h : fails x <;> simp [List.mem_filter, hx, h]
  refine ⟨hclients, ?_, ?_, ?_⟩
  · rw [hclients]
    have := length_filter_add_length_filter_not fails m.clients
    omega
  · intro c hc
    rw [hclients] at hc
    show (c, sseFrame event data) ∈
      (broadcastLoop (sseFrame event data) fails m.clients).2.1
    rw [hloop]
    exact List.mem_map.mpr ⟨c, hc, rfl⟩
  · show (broadcastLoop (sseFrame event data) fails m.clients).1 = m.clients
    rw [hloop]

/-- Successive admissions: fold addClient over a list of new connections. -/
def admitAll (m : SSEManager) (cs : List Nat) : SSEManager :=
  cs.foldl (fun s c => (s.addClient c).manager) m

/-- Admitting a duplicate-free list of fresh connections that fits under the
capacity ceiling appends them all to the live set and preserves the
ceiling. -/
theorem admitAll_clients (cs : List Nat) : ∀ m : SSEManager, cs.Nodup →
    (∀ c ∈ cs, c ∉ m.clients) →
    m.clients.length + cs.length ≤ m.maxConnections →
    (admitAll m cs).clients = m.clients ++ cs
    ∧ (admitAll m cs).maxConnections = m.maxConnections := by
  induction cs with
  | nil => intro m _ _ _; exact ⟨(List.append_nil m.clients).symm, rfl⟩
  | cons c rest ih =>
    intro m hnodup hfresh hlen
    have hlt : m.clients.length < m.maxConnections := by
      simp only [List.length_cons] at hlen; omega
    have hacc : (m.addClient c).manager =
        { m with
            clients := m.clients ++ [c],
            handlersRegistered := m.handlersRegistered ++ [c] } := by
      simp [SSEManager.addClient, Nat.not_le.mpr hlt,
        hfresh c (List.mem_cons_self c rest)]
    have hstep : admitAll m (c :: rest) = admitAll (m.addClient c).manager rest := rfl
    rw [hstep, hacc]
    have hres := ih { m with
        clients := m.clients ++ [c],
        handlersRegistered := m.handlersRegistered ++ [c] }
      (List.Nodup.of_cons hnodup)
      (by
        intro x hx
        simp only [List.mem_append, List.mem_singleton]
        rintro (hin | hEq)
        · exact hfresh x (List.mem_cons_of_mem c hx) hin
        · exact (List.nodup_cons.mp hnodup).1 (hEq ▸ hx))
      (by simp only [List.length_append, List.length_singleton, List.length_nil,
            List.length_cons] at hlen ⊢; omega)
    refine ⟨?_, hres.2⟩
    rw [hres.1, List.append_assoc]
    rfl

/-- C4: addClient returns false with no state change (no writes, live set and
count unchanged) whenever the live count is at or above the capacity ceiling
(2000 in the constructor); otherwise it writes the stream headers and an
initial heartbeat frame, appends the fresh channel to the live set, registers
removal handlers for it, and returns true. With capacity N and N distinct
fresh connections admitted into an empty hub, the (N+1)th admission attempt
is rejected and the live count remains N. -/
theorem addClient_correct (m : SSEManager) (res : Nat) :
    (mkSSEManager.maxConnections = 2000)
    ∧ (m.maxConnections ≤ m.clients.length →
        (m.addClient res).accepted = false
        ∧ (m.addClient res).manager = m
        ∧ (m.addClient res).written = [])
    ∧ (m.clients.length < m.maxConnections →
        (m.addClient res).accepted = true
        ∧ (m.addClient res).written = ["headers", heartbeatFrame]
        ∧ (res ∉ m.clients → (m.addClient res).manager.clients = m.clients ++ [res])
        ∧ res ∈ (m.addClient res).manager.handlersRegistered)
    ∧ (∀ cs : List Nat, cs.Nodup → m.clients = [] → cs.length = m.maxConnections →
        (admitAll m cs).getClientCount = m.maxConnections
        ∧ ((admitAll m cs).addClient res).accepted = false
        ∧ ((admitAll m cs).addClient res).manager.getClientCount = m.maxConnections) := by
  refine ⟨rfl, ?_, ?_, ?_⟩
  · intro hge
    simp [SSEManager.addClient, hge]
  · intro hlt
    refine ⟨?_, ?_, ?_, ?_⟩
    · simp [SSEManager.addClient, Nat.not_le.mpr hlt]
    · simp [SSEManager.addClient, Nat.not_le.mpr hlt]
    · intro hfresh
      simp [SSEManager.addClient, Nat.not_le.mpr hlt, hfresh]
    · simp [SSEManager.addClient, Nat.not_le.mpr hlt]
  · intro cs hnodup hempty hcs
    have hfull := admitAll_clients cs m hnodup
      (by intro c _ hc; rw [hempty] at hc; exact List.not_mem_nil c hc)
      (by rw [hempty, hcs]; simp)
    have hcount : (admitAll m cs).getClientCount = m.maxConnections := by
      unfold SSEManager.getClientCount
      rw [hfull.1, hempty]
      simpa using hcs
    have hge : (admitAll m cs).maxConnections ≤ (admitAll m cs).clients.length := by
      rw [hfull.2]
      exact Nat.le_of_eq hcount.symm
    refine ⟨hcount, ?_, ?_⟩
    · simp [SSEManager.addClient, hge]
    · simp [SSEManager.addClient, hge, hcount]

/-- C4 witness: a hub with capacity 2 admits two distinct connections; the
third admission attempt is rejected and the live count remains 2; a fresh
hub below capacity accepts. -/
theorem addClient_correct_witness :
    ((SSEManager.mk [] 2 []).addClient 5).accepted = true
    ∧ (admitAll (SSEManager.mk [] 2 []) [10, 11]).getClientCount = 2
    ∧ ((admitAll (SSEManager.mk [] 2 []) [10, 11]).addClient 12).accepted = false
    ∧ ((admitAll (SSEManager.mk [] 2 []) [10, 11]).addClient 12).manager.getClientCount = 2 := by
  have h := addClient_correct (SSEManager.mk [] 2 []) 5
  have hsc := (addClient_correct (SSEManager.mk [] 2 []) 12).2.2.2 [10, 11]
    (by decide) rfl rfl
  exact ⟨(h.2.2.1 (by decide)).1, hsc.1, hsc.2.1, hsc.2.2⟩

/-! ## PersistenceCoordinator: the db module (src/unnamed/part_000)

scheduleSave clears any armed timer and arms a new one firing 1000 ms after
the call; the timer, when it fires, performs a durable flush. The debounce
behaviour is modelled on a timeline of strictly increasing call times: an
armed timer due at time f fires iff f is strictly before the next call
(otherwise clearTimeout cancels it first), and a timer still armed when the
timeline ends fires. -/

/-- Quiescence window of scheduleSave (the 1000 ms setTimeout delay). -/
def quiescenceWindow : Nat := 1000

/-- Runs the remaining scheduleSave calls against the currently armed timer
(pending, an absolute due time) and returns the times at which the debounced
flush fires. Each call cancels a still-armed timer and arms a new one at
call time + quiescenceWindow. -/
def runCalls : Option Nat → List Nat → List Nat
  | some f, [] => [f]
  | none, [] => []
  | some f, t :: rest =>
    if f < t then f :: runCalls (some (t + quiescenceWindow)) rest
    else runCalls (some (t + quiescenceWindow)) rest
  | none, t :: rest => runCalls (some (t + quiescenceWindow)) rest

/-- Flush times produced by a timeline of scheduleSave calls, starting with
no timer armed. -/
def scheduleTrace (calls : List Nat) : List Nat := runCalls none calls

/-- Within a burst (a still-armed timer is never due before the next call),
the armed timer survives to a single firing at last call + window. -/
theorem runCalls_burst (rest : List Nat) : ∀ t : Nat,
    rest.Chain' (fun a b => a < b ∧ b ≤ a + quiescenceWindow) →
    (∀ u, rest.head? = some u → u ≤ t + quiescenceWindow) →
    runCalls (some (t + quiescenceWindow)) rest =
      [(t :: rest).getLast (List.cons_ne_nil t rest) + quiescenceWindow] := by
  induction rest with
  | nil => intro t _ _; rfl
  | cons u rest ih =>
    intro t hchain hhead
    have hu : u ≤ t + quiescenceWindow := hhead u rfl
    have hstep : runCalls (some (t + quiescenceWindow)) (u :: rest) =
        runCalls (some (u + quiescenceWindow)) rest := by
      simp [runCalls, Nat.not_lt.mpr hu]
    rw [hstep]
    have := ih u (List.Chain'.tail hchain)
      (by
        intro w hw
        rcases rest with _ | ⟨w0, rest0⟩
        · simp at hw
        · simp only [List.head?_cons, Option.some.injEq] at hw
          exact hw ▸ (List.chain'_cons.mp hchain).1.2)
    rw [this]
    simp [List.getLast]

/-- C3: K ≥ 1 scheduleSave calls at strictly increasing times, each within
one quiescence window (1000 ms) of the previous, trigger exactly one flush,
firing one window after the last call (each call cancels the armed timer and
arms a new one); K calls each separated by strictly more than the window
trigger exactly K flushes, one per call. -/
theorem scheduleSave_debounce (t : Nat) (rest : List Nat) :
    (quiescenceWindow = 1000)
    ∧ ((t :: rest).Chain' (fun a b => a < b ∧ b ≤ a + quiescenceWindow) →
        scheduleTrace (t :: rest) =
          [(t :: rest).getLast (List.cons_ne_nil t rest) + quiescenceWindow])
    ∧ ((t :: rest).Chain' (fun a b => a + quiescenceWindow < b) →
        scheduleTrace (t :: rest) = (t :: rest).map (· + quiescenceWindow)
        ∧ (scheduleTrace (t :: rest)).length = (t :: rest).length) := by
  refine ⟨rfl, ?_, ?_⟩
  · intro hchain
    show runCalls (some (t + quiescenceWindow)) rest = _
    exact runCalls_burst rest t (List.Chain'.tail hchain)
      (by
        intro w hw
        rcases rest with _ | ⟨w0, rest0⟩
        · simp at hw
        · simp only [List.head?_cons, Option.some.injEq] at hw
          exact hw ▸ (List.chain'_cons.mp hchain).1.2)
  · intro hchain
    have hmap : ∀ (l : List Nat) (a : Nat),
        l.Chain' (fun x y => x + quiescenceWindow < y) →
        (∀ u, l.head? = some u → a + quiescenceWindow < u) →
        runCalls (some (a + quiescenceWindow)) l =
          (a + quiescenceWindow) :: l.map (· + quiescenceWindow) := by
      intro l
      induction l with
      | nil => intro a _ _; rfl
      | cons u r ihl =>
        intro a hch hh
        have hu : a + quiescenceWindow < u := hh u rfl
        have : runCalls (some (a + quiescenceWindow)) (u :: r) =
            (a + quiescenceWindow) :: runCalls (some (u + quiescenceWindow)) r := by
          simp [runCalls, hu]
        rw [this, ihl u (List.Chain'.tail hch)
          (by
            intro w hw
            rcases r with _ | ⟨w0, r0⟩
            · simp at hw
            · simp only [List.head?_cons, Option.some.injEq] at hw
              exact hw ▸ (List.chain'_cons.mp hch).1)]
        rfl
    constructor
    · show runCalls (some (t + quiescenceWindow)) rest = _
      rw [hmap rest t (List.Chain'.tail hchain)
        (by
          intro w hw
          rcases rest with _ | ⟨w0, rest0⟩
          · simp at hw
          · simp only [List.head?_cons, Option.some.injEq] at hw
            exact hw ▸ (List.chain'_cons.mp hchain).1)]
      rfl
    · show (runCalls (some (t + quiescenceWindow)) rest).length = _
      rw [hmap rest t (List.Chain'.tail hchain)
        (by
          intro w hw
          rcases rest with _ | ⟨w0, rest0⟩
          · simp at hw
          · simp only [List.head?_cons, Option.some.injEq] at hw
            exact hw ▸ (List.chain'_cons.mp hchain).1)]
      simp

/-- C3 witness: three calls at 0, 500, 900 (a burst) flush once at 1900;
three calls at 0, 2000, 4000 (spread out) flush three times. -/
theorem scheduleSave_debounce_witness :
    scheduleTrace [0, 500, 900] = [1900]
    ∧ scheduleTrace [0, 2000, 4000] = [1000, 3000, 5000] :=
  ⟨(scheduleSave_debounce 0 [500, 900]).2.1
      (by simp [List.chain'_cons, quiescenceWindow]),
   ((scheduleSave_debounce 0 [2000, 4000]).2.2
      (by simp [List.chain'_cons, quiescenceWindow])).1⟩

/-! ## Single-flight discipline of saveDatabase

saveDatabase is an async function; its suspension points are modelled by an
explicit small-step machine. The module-level flags isWriting and
pendingWrite are fields of the state, inProgress counts physical durable
writes currently between the writeFile start and the finally block, and
queued counts setImmediate(saveDatabase) callbacks not yet run. -/

/-- Module-level persistence state of the db module. -/
structure DbState where
  isWriting : Bool
  pendingWrite : Bool
  inProgress : Nat
  queued : Nat
deriving Repr, DecidableEq

/-- Initial state at module load: no write in progress, nothing pending. -/
def dbInit : DbState := ⟨false, false, 0, 0⟩

/-- Synchronous prefix of a saveDatabase call: if isWriting, set pendingWrite
and return without starting a write; otherwise set isWriting and begin one
physical durable write. -/
def saveDatabaseCall (s : DbState) : DbState :=
  if s.isWriting then { s with pendingWrite := true }
  else { s with isWriting := true, inProgress := s.inProgress + 1 }

/-- Finally block of saveDatabase, run when the physical write finishes:
clear isWriting; if pendingWrite is set, clear it and queue exactly one
deferred saveDatabase call via setImmediate. -/
def finishWrite (s : DbState) : DbState :=
  let s1 : DbState := { s with isWriting := false, inProgress := s.inProgress - 1 }
  if s1.pendingWrite then { s1 with pendingWrite := false, queued := s1.queued + 1 }
  else s1

/-- Event loop runs one queued setImmediate callback: it calls
saveDatabase. -/
def runQueued (s : DbState) : DbState :=
  saveDatabaseCall { s with queued := s.queued - 1 }

/-- Interleaving steps of the persistence machine. -/
inductive DbStep : DbState → DbState → Prop
  | call (s : DbState) : DbStep s (saveDatabaseCall s)
  | finish (s : DbState) (h : s.isWriting = true) : DbStep s (finishWrite s)
  | run (s : DbState) (h : 1 ≤ s.queued) : DbStep s (runQueued s)

/-- States reachable from the initial module state. -/
def DbReachable (s : DbState) : Prop :=
  Relation.ReflTransGen DbStep dbInit s

/-- Machine invariant: a physical write is in progress exactly when isWriting
is set, so there is never more than one. -/
def DbInv (s : DbState) : Prop :=
  s.inProgress = (if s.isWriting then 1 else 0)

/-- Every step preserves the invariant. -/
theorem dbStep_preserves (s sNext : DbState) (hstep : DbStep s sNext)
    (hinv : DbInv s) : DbInv sNext := by
  unfold DbInv at hinv ⊢
  cases hstep with
  | call =>
    unfold saveDatabaseCall
    cases h : s.isWriting <;> simp [h] <;> simp [h] at hinv <;> omega
  | finish h =>
    unfold finishWrite
    rw [h] at hinv
    by_cases hp : s.pendingWrite <;> simp [hp, hinv]
  | run h =>
    unfold runQueued saveDatabaseCall
    cases hw : s.isWriting <;> simp [hw] <;> simp [hw] at hinv <;> omega

/-- C2: at every reachable state at most one physical durable write is in
progress; a saveDatabase call while a write is in progress only sets the
pending flag (no new write starts, the write count and the deferred-call
queue are untouched); and when a write finishes with the pending flag set,
the flag is cleared and exactly one deferred saveDatabase call is queued,
which on execution starts exactly one further write. -/
theorem saveDatabase_single_flight (s : DbState) :
    (DbReachable s → DbInv s ∧ s.inProgress ≤ 1)
    ∧ (s.isWriting = true →
        (saveDatabaseCall s).pendingWrite = true
        ∧ (saveDatabaseCall s).inProgress = s.inProgress
        ∧ (saveDatabaseCall s).isWriting = s.isWriting
        ∧ (saveDatabaseCall s).queued = s.queued)
    ∧ (s.isWriting = true → s.pendingWrite = true →
        (finishWrite s).pendingWrite = false
        ∧ (finishWrite s).queued = s.queued + 1
        ∧ (finishWrite s).isWriting = false)
    ∧ (s.isWriting = false → 1 ≤ s.queued →
        (runQueued s).inProgress = s.inProgress + 1
        ∧ (runQueued s).isWriting = true) := by
  refine ⟨?_, ?_, ?_, ?_⟩
  · intro hreach
    have hinv : DbInv s := by
      induction hreach with
      | refl => rfl
      | tail _ hstep ih => exact dbStep_preserves _ _ hstep ih
    refine ⟨hinv, ?_⟩
    unfold DbInv at hinv
    by_cases hw : s.isWriting <;> simp [hw] at hinv <;> omega
  · intro hw
    simp [saveDatabaseCall, hw]
  · intro hw hp
    simp [finishWrite, hp]
  · intro hw hq
    simp [runQueued, saveDatabaseCall, hw]

/-- C2 witness: the initial state is reachable and satisfies the invariant;
a state with a write in progress absorbs a second call into the pending
flag; finishing with the flag set queues exactly one follow-up call. -/
theorem saveDatabase_single_flight_witness :
    (DbInv dbInit ∧ dbInit.inProgress ≤ 1)
    ∧ (saveDatabaseCall ⟨true, false, 1, 0⟩).pendingWrite = true
    ∧ (saveDatabaseCall ⟨true, false, 1, 0⟩).inProgress = 1
    ∧ (finishWrite ⟨true, true, 1, 0⟩).queued = 1
    ∧ (finishWrite ⟨true, true, 1, 0⟩).pendingWrite = false :=
  ⟨(saveDatabase_single_flight dbInit).1 Relation.ReflTransGen.refl,
   ((saveDatabase_single_flight ⟨true, false, 1, 0⟩).2.1 rfl).1,
   ((saveDatabase_single_flight ⟨true, false, 1, 0⟩).2.1 rfl).2.1,
   ((saveDatabase_single_flight ⟨true, true, 1, 0⟩).2.2.1 rfl rfl).2.1,
   ((saveDatabase_single_flight ⟨true, true, 1, 0⟩).2.2.1 rfl rfl).1⟩

/-! ## VersionStore: the data_versions table and bumpVersion

The data_versions table (src/db/schema.sql) maps a key to an integer
version; incrementVersion runs the single statement
UPDATE data_versions SET version = version + 1 WHERE key = ?, and bumpVersion
then reads the row back, returning 0 when the row is absent
(the ?.version || 0 fallback). -/

/-- A data_versions table: rows (key, version). -/
abbrev VersionTable := List (String × Nat)

/-- Rows present after running the schema: the three INSERT OR IGNORE default
rows at version 0. -/
def schemaVersions : VersionTable :=
  [("raffles", 0), ("rules", 0), ("sponsors", 0)]

/-- statements.incrementVersion: the single UPDATE statement, bumping the
version of every row whose key matches (the key is primary, so at most
one). -/
def incrementVersion (t : VersionTable) (key : String) : VersionTable :=
  t.map (fun p => if p.1 = key then (p.1, p.2 + 1) else p)

/-- statements.getVersion: SELECT version FROM data_versions WHERE key = ?. -/
def getVersion (t : VersionTable) (key : String) : Option Nat :=
  t.lookup key

/-- bumpVersion(key): run incrementVersion, then read the row back; an absent
row yields 0 via the optional-chaining fallback. Returns (newVersion, new
table). -/
def bumpVersion (t : VersionTable) (key : String) : Nat × VersionTable :=
  let tNew := incrementVersion t key
  ((getVersion tNew key).getD 0, tNew)

/-- Looking up the bumped key after incrementVersion yields its old value
plus one. -/
theorem lookup_incrementVersion (t : VersionTable) (key : String) (v : Nat)
    (h : t.lookup key = some v) :
    (incrementVersion t key).lookup key = some (v + 1) := by
  induction t with
  | nil => simp at h
  | cons p rest ih =>
    obtain ⟨k0, v0⟩ := p
    by_cases hk : k0 = key
    · subst hk
      simp only [List.lookup_cons, beq_self_eq_true, Option.some.injEq] at h
      simp [incrementVersion, List.lookup_cons, h]
    · have hb : (key == k0) = false := by simp [Ne.symm hk]
      simp only [List.lookup_cons, hb] at h
      simp only [incrementVersion, List.map_cons, if_neg hk, List.lookup_cons, hb]
      exact ih h

/-- Looking up any other key is unchanged by incrementVersion. -/
theorem lookup_incrementVersion_other (t : VersionTable) (key other : String)
    (hne : other ≠ key) :
    (incrementVersion t key).lookup other = t.lookup other := by
  induction t with
  | nil => rfl
  | cons p rest ih =>
    obtain ⟨k0, v0⟩ := p
    by_cases hk : k0 = key
    · have hbeq : (other == k0) = false := by simp [hk, hne]
      simp only [incrementVersion, List.map_cons, if_pos hk, List.lookup_cons, hbeq]
      exact ih
    · simp only [incrementVersion, List.map_cons, if_neg hk, List.lookup_cons]
      cases hbeq : other == k0
      · exact ih
      · rfl

/-- A key with no row is left untouched by the UPDATE: it matches no row. -/
theorem incrementVersion_of_absent (t : VersionTable) (key : String)
    (h : t.lookup key = none) : incrementVersion t key = t := by
  induction t with
  | nil => rfl
  | cons p rest ih =>
    obtain ⟨k0, v0⟩ := p
    rw [List.lookup_cons] at h
    cases hbeq : key == k0
    · rw [hbeq] at h
      have hk : k0 ≠ key := by
        intro hEq
        simp [hEq] at hbeq
      simp only [incrementVersion, List.map_cons, if_neg hk]
      rw [show List.map (fun p => if p.1 = key then (p.1, p.2 + 1) else p) rest =
        incrementVersion rest key from rfl, ih h]
    · rw [hbeq] at h
      simp at h

/-- Stored value of a key, with the same 0 default the server uses. -/
def versionValue (t : VersionTable) (key : String) : Nat :=
  (t.lookup key).getD 0

/-- C6: when the domain has a row holding v, bumpVersion increments the
stored counter by exactly 1 (to v + 1) and returns the new value; no stored
counter ever decreases across the operation; and two successive increments
on the same domain return the distinct values v + 1 and v + 2 — the
increment is a single transactional UPDATE, so no two serialized increments
observe and write the same stale value. -/
theorem bumpVersion_increments (t : VersionTable) (key : String) (v : Nat)
    (h : t.lookup key = some v) :
    ((bumpVersion t key).1 = v + 1)
    ∧ (getVersion (bumpVersion t key).2 key = some (v + 1))
    ∧ (∀ k : String, versionValue t k ≤ versionValue (bumpVersion t key).2 k)
    ∧ ((bumpVersion (bumpVersion t key).2 key).1 = v + 2)
    ∧ ((bumpVersion t key).1 ≠ (bumpVersion (bumpVersion t key).2 key).1) := by
  have h1 := lookup_incrementVersion t key v h
  have h2 := lookup_incrementVersion (incrementVersion t key) key (v + 1) h1
  refine ⟨?_, ?_, ?_, ?_, ?_⟩
  · simp [bumpVersion, getVersion, h1]
  · simpa [bumpVersion, getVersion] using h1
  · intro k
    by_cases hk : k = key
    · subst hk
      simp [versionValue, bumpVersion, h, h1]
    · simp [versionValue, bumpVersion,
        lookup_incrementVersion_other t key k hk]
  · simp [bumpVersion, getVersion, h2]
  · simp [bumpVersion, getVersion, h1, h2]

/-- C6 witness: bumping the raffles row of the schema-initialized table
returns 1, stores 1, and a second bump returns 2. -/
theorem bumpVersion_increments_witness :
    ((bumpVersion schemaVersions "raffles").1 = 1)
    ∧ (getVersion (bumpVersion schemaVersions "raffles").2 "raffles" = some 1)
    ∧ ((bumpVersion (bumpVersion schemaVersions "raffles").2 "raffles").1 = 2) :=
  ⟨(bumpVersion_increments schemaVersions "raffles" 0 rfl).1,
   (bumpVersion_increments schemaVersions "raffles" 0 rfl).2.1,
   (bumpVersion_increments schemaVersions "raffles" 0 rfl).2.2.2.1⟩

/-- C10: bumpVersion on a domain with no row in data_versions leaves the
table unchanged (the UPDATE matches no row, so nothing is created and no
counter moves) and returns 0; incrementVersion never changes the key set, so
version counters exist exactly for the domains the schema pre-registers:
raffles, rules and sponsors. -/
theorem bumpVersion_absent (t : VersionTable) (key : String) :
    (t.lookup key = none →
        (bumpVersion t key).1 = 0 ∧ (bumpVersion t key).2 = t)
    ∧ ((incrementVersion t key).map Prod.fst = t.map Prod.fst)
    ∧ (schemaVersions.map Prod.fst = ["raffles", "rules", "sponsors"]) := by
  refine ⟨?_, ?_, rfl⟩
  · intro h
    have hid := incrementVersion_of_absent t key h
    constructor
    · simp [bumpVersion, getVersion, hid, h]
    · simp [bumpVersion, hid]
  · simp only [incrementVersion, List.map_map]
    refine List.map_congr_left ?_
    intro p _
    by_cases hk : p.1 = key <;> simp [hk]

/-- C10 witness: bumping the unregistered domain users leaves the schema
table unchanged and returns 0. -/
theorem bumpVersion_absent_witness :
    (bumpVersion schemaVersions "users").1 = 0
    ∧ (bumpVersion schemaVersions "users").2 = schemaVersions :=
  (bumpVersion_absent schemaVersions "users").1 rfl

/-! ## Mutation tails of the CRUD route handlers

Every mutation handler of the express server ends with the same tail: the
SQL mutation statement runs through run() (which executes the statement and
then arms scheduleSave), then cache.invalidate(domain), then
bumpVersion(domain) (another run() of the UPDATE plus scheduleSave), then
notifyClients(domain) which broadcasts the freshly read version. The tail is
embedded as the list of externally visible events it issues, in program
order. -/

/-- Events issued by a mutation handler. -/
inductive MutEvent where
  | rowMutated : MutEvent
  | flushScheduled : MutEvent
  | cacheInvalidated : String → MutEvent
  | versionBumped : String → MutEvent
  | broadcastSent : String → Nat → MutEvent
deriving DecidableEq, Repr

/-- Event trace of the success path of app.post(/api/raffles) from the
insertRaffle statement onwards: run() executes the INSERT and arms
scheduleSave; then cache.invalidate, bumpVersion (the UPDATE plus another
scheduleSave), and notifyClients broadcasting the new version. -/
def postRafflesTailTrace (t : VersionTable) : List MutEvent :=
  [MutEvent.rowMutated, MutEvent.flushScheduled,
   MutEvent.cacheInvalidated "raffles",
   MutEvent.versionBumped "raffles", MutEvent.flushScheduled,
   MutEvent.broadcastSent "raffles"
     (versionValue (incrementVersion t "raffles") "raffles")]

/-- Event trace of the success path of app.put(/api/rules) from the
upsertRules statement onwards; same tail shape with domain rules. -/
def putRulesTailTrace (t : VersionTable) : List MutEvent :=
  [MutEvent.rowMutated, MutEvent.flushScheduled,
   MutEvent.cacheInvalidated "rules",
   MutEvent.versionBumped "rules", MutEvent.flushScheduled,
   MutEvent.broadcastSent "rules"
     (versionValue (incrementVersion t "rules") "rules")]

/-- The four step kinds whose relative order the spec constrains. -/
inductive StepTag where
  | flush : StepTag
  | inval : StepTag
  | bump : StepTag
  | notify : StepTag
deriving DecidableEq, Repr

/-- Step kind of an event, ignoring payloads; the raw row mutation is not one
of the four constrained steps. -/
def tagOf : MutEvent → Option StepTag
  | MutEvent.rowMutated => none
  | MutEvent.flushScheduled => some StepTag.flush
  | MutEvent.cacheInvalidated _ => some StepTag.inval
  | MutEvent.versionBumped _ => some StepTag.bump
  | MutEvent.broadcastSent _ _ => some StepTag.notify

/-- Sequence of constrained step kinds issued by a trace, in program order. -/
def stepTags (tr : List MutEvent) : List StepTag := tr.filterMap tagOf

/-- The four steps a, b, c, d are issued in this order somewhere in the
trace: strictly increasing positions carrying the four tags. -/
def issuedInOrder (tr : List StepTag) (a b c d : StepTag) : Prop :=
  ∃ i1 i2 i3 i4 : Fin tr.length, i1 < i2 ∧ i2 < i3 ∧ i3 < i4
    ∧ tr.get i1 = a ∧ tr.get i2 = b ∧ tr.get i3 = c ∧ tr.get i4 = d

instance issuedInOrderDec (tr : List StepTag) (a b c d : StepTag) :
    Decidable (issuedInOrder tr a b c d) :=
  inferInstanceAs (Decidable (∃ i1 i2 i3 i4 : Fin tr.length,
    i1 < i2 ∧ i2 < i3 ∧ i3 < i4
    ∧ tr.get i1 = a ∧ tr.get i2 = b ∧ tr.get i3 = c ∧ tr.get i4 = d))

/-- C7 counterexample: the claimed order "durable write scheduled, then
version incremented, then cache invalidated, then clients notified" does not
occur in the trace of the app.post(/api/raffles) mutation tail: the handler
invalidates the cache before it bumps the version. -/
theorem mutation_tail_claimed_order_false :
    ¬ issuedInOrder (stepTags (postRafflesTailTrace schemaVersions))
      StepTag.flush StepTag.bump StepTag.inval StepTag.notify := by
  decide

/-- C7 (amended): both cited mutation tails issue the four steps in the
program order durable write scheduled, then cache invalidated, then version
incremented, then clients notified via broadcast carrying the new
version. -/
theorem mutation_tail_order (t : VersionTable) :
    issuedInOrder (stepTags (postRafflesTailTrace t))
      StepTag.flush StepTag.inval StepTag.bump StepTag.notify
    ∧ issuedInOrder (stepTags (putRulesTailTrace t))
      StepTag.flush StepTag.inval StepTag.bump StepTag.notify := by
  have hpost : stepTags (postRafflesTailTrace t) =
      [StepTag.flush, StepTag.inval, StepTag.bump, StepTag.flush,
        StepTag.notify] := rfl
  have hput : stepTags (putRulesTailTrace t) =
      [StepTag.flush, StepTag.inval, StepTag.bump, StepTag.flush,
        StepTag.notify] := rfl
  rw [hpost, hput]
  constructor <;> decide

/-! ## Conditional-read protocol of the domain GET endpoints

app.get(/api/raffles), (/api/rules) and (/api/sponsors) share one shape:
read the If-None-Match header, read the current stored version (default 0),
short-circuit to an empty 304 when the parsed header equals the version,
otherwise serve from cache, falling back to a durable-store read that
repopulates the cache, and tag the response with the version as ETag. The
header is modelled as the parsed numeric token (none when absent). -/

/-- Response produced by a domain GET endpoint: status code, optional body,
optional ETag header, and whether the durable store was queried to
materialize the payload. -/
structure ReadResponse (α : Type) where
  status : Nat
  body : Option α
  etag : Option Nat
  dbQueried : Bool
deriving Repr, DecidableEq

/-- Cache-or-db load of the full-response branch: cache.get, on miss read
the durable payload and cache.set it tagged with the current version. -/
def serveFull {α : Type} (c : DataCache α) (now : Nat) (domain : String)
    (dbPayload : α) (currentVersion : Nat) : ReadResponse α × DataCache α :=
  match c.get now domain with
  | (some payload, c1) =>
    ({ status := 200, body := some payload, etag := some currentVersion,
       dbQueried := false }, c1)
  | (none, c1) =>
    ({ status := 200, body := some dbPayload, etag := some currentVersion,
       dbQueried := true }, c1.set now domain dbPayload currentVersion)

/-- Domain GET endpoint: the conditional-read check followed by the
cache-backed full response. -/
def getDomainHandler {α : Type} (t : VersionTable) (c : DataCache α)
    (now : Nat) (domain : String) (dbPayload : α)
    (ifNoneMatch : Option Nat) : ReadResponse α × DataCache α :=
  let currentVersion := versionValue t domain
  match ifNoneMatch with
  | some clientVersion =>
    if clientVersion = currentVersion then
      ({ status := 304, body := none, etag := none, dbQueried := false }, c)
    else serveFull c now domain dbPayload currentVersion
  | none => serveFull c now domain dbPayload currentVersion

/-- C8: a read request presenting a version token equal to the stored
current version of the domain receives an empty 304 with no payload
materialization and an unchanged cache; any other request — absent token or
token differing from the current version — receives a 200 whose body carries
a payload and whose ETag is the current version. -/
theorem conditional_read_correct {α : Type} (t : VersionTable)
    (c : DataCache α) (now : Nat) (domain : String) (dbPayload : α)
    (clientVersion : Nat) :
    ((getDomainHandler t c now domain dbPayload
        (some (versionValue t domain))).1.status = 304
      ∧ (getDomainHandler t c now domain dbPayload
          (some (versionValue t domain))).1.body = none
      ∧ (getDomainHandler t c now domain dbPayload
          (some (versionValue t domain))).1.dbQueried = false
      ∧ (getDomainHandler t c now domain dbPayload
          (some (versionValue t domain))).2 = c)
    ∧ (clientVersion ≠ versionValue t domain →
        (getDomainHandler t c now domain dbPayload
            (some clientVersion)).1.status = 200
        ∧ ((getDomainHandler t c now domain dbPayload
            (some clientVersion)).1.body).isSome = true
        ∧ (getDomainHandler t c now domain dbPayload
            (some clientVersion)).1.etag = some (versionValue t domain))
    ∧ ((getDomainHandler t c now domain dbPayload none).1.status = 200
        ∧ ((getDomainHandler t c now domain dbPayload none).1.body).isSome = true
        ∧ (getDomainHandler t c now domain dbPayload none).1.etag =
            some (versionValue t domain)) := by
  have hfull : ∀ cv : Option α, ∀ c1 : DataCache α,
      c.get now domain = (cv, c1) →
      (serveFull c now domain dbPayload (versionValue t domain)).1.status = 200
      ∧ ((serveFull c now domain dbPayload
          (versionValue t domain)).1.body).isSome = true
      ∧ (serveFull c now domain dbPayload (versionValue t domain)).1.etag =
          some (versionValue t domain) := by
    intro cv c1 hEq
    unfold serveFull
    rw [hEq]
    cases cv <;> simp
  refine ⟨⟨?_, ?_, ?_, ?_⟩, ?_, ?_⟩
  · simp [getDomainHandler]
  · simp [getDomainHandler]
  · simp [getDomainHandler]
  · simp [getDomainHandler]
  · intro hne
    have := hfull (c.get now domain).1 (c.get now domain).2 rfl
    simpa [getDomainHandler, hne] using this
  · have := hfull (c.get now domain).1 (c.get now domain).2 rfl
    simpa [getDomainHandler] using this

/-- C8 witness: against the schema-initialized version table (raffles at 0)
and an empty cache, presenting token 0 yields 304 with no body, while token
3 yields a 200 tagged ETag 0. -/
theorem conditional_read_correct_witness :
    ((getDomainHandler schemaVersions (DataCache.empty (α := Nat)) 5
        "raffles" 42 (some 0)).1.status = 304)
    ∧ ((getDomainHandler schemaVersions (DataCache.empty (α := Nat)) 5
        "raffles" 42 (some 3)).1.status = 200)
    ∧ ((getDomainHandler schemaVersions (DataCache.empty (α := Nat)) 5
        "raffles" 42 (some 3)).1.etag = some 0) :=
  ⟨(conditional_read_correct schemaVersions DataCache.empty 5 "raffles" 42 0).1.1,
   ((conditional_read_correct schemaVersions DataCache.empty 5 "raffles" 42 3).2.1
      (by decide)).1,
   ((conditional_read_correct schemaVersions DataCache.empty 5 "raffles" 42 3).2.1
      (by decide)).2.2⟩

end Raffle
